import Mathlib

/-!
Verification of the HYDROLIB-core pluggy proof-of-concept.

The development shallowly embeds:
* the text utilities and the `.bui` precipitation-format parser/serializer
  pair (the parser/serializer module itself is absent from the sources, so
  those definitions are modelled from the specification, cross-checked
  against the repository's tests);
* the generic `FileModel` lifecycle from `hydrolib/core/basemodel.py`:
  construct-time field-mapping merge, the `validate` Path shortcut, and the
  recursive `save` over a model graph.

Text is represented as `List Char`; Python dict-shaped field mappings are
represented as functions `String → Option MVal` or association lists.
-/

namespace HydrolibText

/-- Text, as the character list underlying a Python string. -/
abbrev Text := List Char

/-- Split a character list on a separator character.  The result is the list
of (possibly empty) fragments between separator occurrences; it is never
empty. -/
def splitOnChar (c : Char) : Text → List Text
  | [] => [[]]
  | x :: xs =>
    if x = c then [] :: splitOnChar c xs
    else
      match splitOnChar c xs with
      | [] => [[x]]
      | l :: ls => (x :: l) :: ls

/-- Join a list of fragments with a separator character (inverse of
`splitOnChar` on separator-free fragments). -/
def joinWith (c : Char) : List Text → Text
  | [] => []
  | [l] => l
  | l :: ls => l ++ c :: joinWith c ls

theorem splitOnChar_ne_nil (c : Char) (l : Text) : splitOnChar c l ≠ [] := by
  induction l with
  | nil => simp [splitOnChar]
  | cons x xs ih =>
    simp only [splitOnChar]
    by_cases hx : x = c
    · simp [hx]
    · simp only [if_neg hx]
      cases hsp : splitOnChar c xs with
      | nil => simp
      | cons l ls => simp

theorem splitOnChar_of_not_mem {c : Char} {l : Text} (h : c ∉ l) :
    splitOnChar c l = [l] := by
  induction l with
  | nil => rfl
  | cons x xs ih =>
    simp only [List.mem_cons, not_or] at h
    have hx : ¬ x = c := fun e => h.1 e.symm
    simp only [splitOnChar, if_neg hx, ih h.2]

theorem splitOnChar_append_cons {c : Char} {l : Text} (t : Text) (h : c ∉ l) :
    splitOnChar c (l ++ c :: t) = l :: splitOnChar c t := by
  induction l with
  | nil => simp [splitOnChar]
  | cons x xs ih =>
    simp only [List.mem_cons, not_or] at h
    have hx : ¬ x = c := fun e => h.1 e.symm
    simp only [List.cons_append, splitOnChar, if_neg hx, List.append_eq, ih h.2]

theorem splitOnChar_joinWith {c : Char} {ls : List Text} (hne : ls ≠ [])
    (h : ∀ l ∈ ls, c ∉ l) : splitOnChar c (joinWith c ls) = ls := by
  induction ls with
  | nil => exact absurd rfl hne
  | cons l rest ih =>
    match rest with
    | [] =>
      simp only [joinWith]
      exact splitOnChar_of_not_mem (h l (by simp))
    | r :: rs =>
      have hjoin : joinWith c (l :: r :: rs) = l ++ c :: joinWith c (r :: rs) := rfl
      rw [hjoin, splitOnChar_append_cons _ (h l (by simp))]
      rw [ih (by simp) (fun x hx => h x (List.mem_cons_of_mem _ hx))]

/-- Whitespace tokenization of one logical line: split on the space
character and drop empty fragments. -/
def tokenize (l : Text) : List Text :=
  (splitOnChar ' ' l).filter (fun t => !t.isEmpty)

theorem tokenize_joinWith {ts : List Text}
    (h : ∀ t ∈ ts, t ≠ [] ∧ ' ' ∉ t) : tokenize (joinWith ' ' ts) = ts := by
  match ts with
  | [] => rfl
  | t :: rest =>
    unfold tokenize
    rw [splitOnChar_joinWith (by simp) (fun l hl => (h l hl).2)]
    exact List.filter_eq_self.2 (fun a ha => by
      simpa using (h a ha).1)

/-- The decimal digit character for a value below ten. -/
def digitChar : Nat → Char
  | 0 => '0' | 1 => '1' | 2 => '2' | 3 => '3' | 4 => '4'
  | 5 => '5' | 6 => '6' | 7 => '7' | 8 => '8' | _ => '9'

/-- Decimal digits, most significant first, with an explicit recursion
budget (any budget at least the value itself is enough). -/
def natTextAux : Nat → Nat → Text
  | 0, _ => []
  | fuel + 1, n =>
    if n = 0 then [] else natTextAux fuel (n / 10) ++ [digitChar (n % 10)]

/-- Decimal digits of a positive number, most significant first
(empty for zero). -/
def natTextCore (n : Nat) : Text :=
  natTextAux n n

theorem natTextAux_irrel :
    ∀ n f1 f2, n ≤ f1 → n ≤ f2 → natTextAux f1 n = natTextAux f2 n := by
  intro n
  induction n using Nat.strong_induction_on with
  | _ n ih =>
    intro f1 f2 h1 h2
    by_cases h0 : n = 0
    · subst h0
      cases f1 <;> cases f2 <;> simp [natTextAux]
    · have hp : 0 < n := Nat.pos_of_ne_zero h0
      cases f1 with
      | zero => omega
      | succ g1 =>
        cases f2 with
        | zero => omega
        | succ g2 =>
          simp only [natTextAux, if_neg h0]
          have hlt : n / 10 < n := Nat.div_lt_self hp (by omega)
          rw [ih (n / 10) hlt g1 g2 (by omega) (by omega)]

/-- Decimal text of a natural number, as Python `str` renders it. -/
def natText (n : Nat) : Text :=
  if n = 0 then ['0'] else natTextCore n

/-- Numeric value of a decimal digit character. -/
def charDigit (c : Char) : Option Nat :=
  if c = '0' then some 0 else if c = '1' then some 1
  else if c = '2' then some 2 else if c = '3' then some 3
  else if c = '4' then some 4 else if c = '5' then some 5
  else if c = '6' then some 6 else if c = '7' then some 7
  else if c = '8' then some 8 else if c = '9' then some 9
  else none

def parseNatAux : Text → Nat → Option Nat
  | [], acc => some acc
  | c :: cs, acc =>
    match charDigit c with
    | some d => parseNatAux cs (acc * 10 + d)
    | none => none

/-- Parse a non-empty all-digit token as a natural number (the `int(...)`
coercion applied to a decimal token). -/
def parseNat : Text → Option Nat
  | [] => none
  | l => parseNatAux l 0

theorem charDigit_digitChar {d : Nat} (h : d < 10) :
    charDigit (digitChar d) = some d := by
  interval_cases d <;> rfl

theorem parseNatAux_append (l1 l2 : Text) (a : Nat) :
    parseNatAux (l1 ++ l2) a =
      match parseNatAux l1 a with
      | some b => parseNatAux l2 b
      | none => none := by
  induction l1 generalizing a with
  | nil => rfl
  | cons c cs ih =>
    simp only [List.cons_append, parseNatAux]
    cases charDigit c with
    | none => rfl
    | some d => exact ih _

theorem natTextCore_zero : natTextCore 0 = [] := rfl

theorem natTextCore_pos {n : Nat} (h : n ≠ 0) :
    natTextCore n = natTextCore (n / 10) ++ [digitChar (n % 10)] := by
  cases n with
  | zero => exact absurd rfl h
  | succ m =>
    have hle : (m + 1) / 10 ≤ m := by
      have := Nat.div_lt_self (Nat.succ_pos m) (by omega : (1:Nat) < 10)
      omega
    show natTextAux (m + 1) (m + 1) = _
    simp only [natTextAux, if_neg (Nat.succ_ne_zero m)]
    rw [natTextAux_irrel ((m + 1) / 10) m ((m + 1) / 10) hle (le_refl _)]
    rfl

theorem parseNatAux_natTextCore (n : Nat) :
    ∀ a, parseNatAux (natTextCore n) a =
      some (a * 10 ^ (natTextCore n).length + n) := by
  induction n using Nat.strong_induction_on with
  | _ n ih =>
    intro a
    by_cases h : n = 0
    · subst h; simp [natTextCore_zero, parseNatAux]
    · rw [natTextCore_pos h, parseNatAux_append]
      rw [ih (n / 10) (Nat.div_lt_self (Nat.pos_of_ne_zero h) (by omega))]
      have hd : n % 10 < 10 := Nat.mod_lt _ (by omega)
      simp only [parseNatAux, charDigit_digitChar hd]
      have hlen : (natTextCore (n / 10) ++ [digitChar (n % 10)]).length =
          (natTextCore (n / 10)).length + 1 := by simp
      rw [hlen]
      have : (a * 10 ^ (natTextCore (n / 10)).length + n / 10) * 10 + n % 10 =
          a * 10 ^ ((natTextCore (n / 10)).length + 1) + n := by
        rw [pow_succ, ← mul_assoc]; omega
      rw [this]

theorem natTextCore_ne_nil {n : Nat} (h : n ≠ 0) : natTextCore n ≠ [] := by
  rw [natTextCore_pos h]; simp

theorem natText_ne_nil (n : Nat) : natText n ≠ [] := by
  unfold natText
  by_cases h : n = 0
  · simp [h]
  · simp [h, natTextCore_ne_nil h]

theorem parseNat_natText (n : Nat) : parseNat (natText n) = some n := by
  by_cases h : n = 0
  · subst h; rfl
  · have hne := natTextCore_ne_nil h
    unfold natText
    rw [if_neg h]
    obtain ⟨c, cs, hcs⟩ : ∃ c cs, natTextCore n = c :: cs := by
      cases hx : natTextCore n with
      | nil => exact absurd hx hne
      | cons c cs => exact ⟨c, cs, rfl⟩
    rw [hcs]
    show parseNatAux (c :: cs) 0 = some n
    rw [← hcs, parseNatAux_natTextCore n 0]
    simp

theorem mem_natTextCore {n : Nat} {c : Char} (h : c ∈ natTextCore n) :
    ∃ d, d < 10 ∧ c = digitChar d := by
  induction n using Nat.strong_induction_on with
  | _ n ih =>
    by_cases h0 : n = 0
    · subst h0; rw [natTextCore_zero] at h; simp at h
    · rw [natTextCore_pos h0] at h
      rcases List.mem_append.1 h with hl | hr
      · exact ih (n / 10) (Nat.div_lt_self (Nat.pos_of_ne_zero h0) (by omega)) hl
      · simp only [List.mem_singleton] at hr
        exact ⟨n % 10, Nat.mod_lt _ (by omega), hr⟩

theorem mem_natText {n : Nat} {c : Char} (h : c ∈ natText n) :
    ∃ d, d < 10 ∧ c = digitChar d := by
  unfold natText at h
  by_cases h0 : n = 0
  · rw [if_pos h0] at h; simp only [List.mem_singleton] at h
    exact ⟨0, by omega, h⟩
  · rw [if_neg h0] at h; exact mem_natTextCore h

theorem digitChar_plain {d : Nat} (h : d < 10) :
    digitChar d ≠ ' ' ∧ digitChar d ≠ '\n' ∧ digitChar d ≠ '*' := by
  interval_cases d <;> exact ⟨by decide, by decide, by decide⟩

theorem natText_no_space {n : Nat} : ' ' ∉ natText n := by
  intro h
  obtain ⟨d, hd, he⟩ := mem_natText h
  exact (digitChar_plain hd).1 he.symm

theorem natText_no_newline {n : Nat} : '\n' ∉ natText n := by
  intro h
  obtain ⟨d, hd, he⟩ := mem_natText h
  exact (digitChar_plain hd).2.1 he.symm

/-- `natText` always begins with a digit character. -/
theorem natText_head_digit (n : Nat) :
    ∃ d t, d < 10 ∧ natText n = digitChar d :: t := by
  unfold natText
  by_cases h0 : n = 0
  · exact ⟨0, [], by omega, by rw [if_pos h0]; rfl⟩
  · rw [if_neg h0]
    suffices hgen : ∀ m, m ≠ 0 → ∃ d t, d < 10 ∧ natTextCore m = digitChar d :: t from
      hgen n h0
    intro m
    induction m using Nat.strong_induction_on with
    | _ m ih =>
      intro hm
      rw [natTextCore_pos hm]
      by_cases hq : m / 10 = 0
      · rw [hq, natTextCore_zero]
        exact ⟨m % 10, _, Nat.mod_lt _ (by omega), rfl⟩
      · obtain ⟨d, t, hd, he⟩ :=
          ih (m / 10) (Nat.div_lt_self (Nat.pos_of_ne_zero hm) (by omega)) hq
        exact ⟨d, t ++ [digitChar (m % 10)], hd, by rw [he]; rfl⟩

end HydrolibText

namespace HydrolibBui

open HydrolibText

/-- A calendar timestamp at second resolution (the first six integers of an
event-block header in `hydrolib/core/io/bui`). -/
structure DateTime where
  year : Nat
  month : Nat
  day : Nat
  hour : Nat
  minute : Nat
  second : Nat
deriving DecidableEq, Repr

/-- Modelled from the spec: the serializer's duration decomposition —
`days = total // 86400`; `r = total % 86400`; `hours = r // 3600`;
`r %= 3600`; `minutes = r // 60`; `seconds = r % 60`
(the body of `BuiSerializer.serialize_timeseries_length`, absent from the
sources; the decomposition algorithm is given verbatim in the spec). -/
def decomposeDuration (total : Nat) : Nat × Nat × Nat × Nat :=
  let days := total / 86400
  let r := total % 86400
  let hours := r / 3600
  let r2 := r % 3600
  let minutes := r2 / 60
  let seconds := r2 % 60
  (days, hours, minutes, seconds)

/-- Reconstruction of an elapsed duration from its four header integers:
`days*86400 + hours*3600 + minutes*60 + seconds`. -/
def recomposeDuration (days hours minutes seconds : Nat) : Nat :=
  days * 86400 + hours * 3600 + minutes * 60 + seconds

/-- One precipitation event of a `.bui` file
(`BuiPrecipitationEvent` of `hydrolib/core/io/bui/models.py`):
start timestamp, elapsed duration (`timeseries_length`, held as its total
number of seconds), and the observation rows, each value kept as its
literal decimal text. -/
structure BuiEvent where
  start_time : DateTime
  timeseries_length : Nat
  precipitation_per_timestep : List (List Text)
deriving DecidableEq, Repr

/-- The root `.bui` document (`BuiModel` of
`hydrolib/core/io/bui/models.py`, minus the file location, which belongs to
the `FileModel` lifecycle, not to the format). -/
structure BuiDocument where
  default_dataset : Nat
  number_of_stations : Nat
  name_of_stations : List Text
  number_of_events : Nat
  seconds_per_timestep : Nat
  precipitation_events : List BuiEvent
deriving DecidableEq, Repr

/-- Modelled from the spec: `BuiSerializer.serialize_start_time` — the six
start-timestamp integers space-joined (no zero padding). -/
def serializeStartTime (t : DateTime) : Text :=
  joinWith ' ' [natText t.year, natText t.month, natText t.day,
    natText t.hour, natText t.minute, natText t.second]

/-- The four duration tokens of an event-block header. -/
def durTokens (total : Nat) : List Text :=
  match decomposeDuration total with
  | (d, h, m, s) => [natText d, natText h, natText m, natText s]

/-- Modelled from the spec: `BuiSerializer.serialize_timeseries_length` —
the four duration-decomposition integers space-joined. -/
def serializeTimeseriesLength (total : Nat) : Text :=
  joinWith ' ' (durTokens total)

/-- The ten whitespace-separated tokens of an event-block header. -/
def headerTokens (e : BuiEvent) : List Text :=
  [natText e.start_time.year, natText e.start_time.month,
   natText e.start_time.day, natText e.start_time.hour,
   natText e.start_time.minute, natText e.start_time.second] ++
  durTokens e.timeseries_length

/-- The header line of one event block: start time then duration, all ten
integer tokens space-joined. -/
def serializeEventHeader (e : BuiEvent) : Text :=
  joinWith ' ' (headerTokens e)

/-- Modelled from the spec: one serialized event block — the ten-integer
header line followed by one line per observation row, values space-joined
verbatim (no numeric reformatting). -/
def serializeEvent (e : BuiEvent) : List Text :=
  serializeEventHeader e :: e.precipitation_per_timestep.map (joinWith ' ')

/-- Modelled from the spec: the full line layout written by
`BuiSerializer.serialize` (comment lines, the four scalar/station lines,
then every event block).  `loc` is the file location and `now` the
generated construction timestamp, both of which only appear inside comment
lines. -/
def buiLines (loc now : Text) (d : BuiDocument) : List Text :=
  ('*' :: ("Name of this file: ".toList ++ loc)) ::
  ('*' :: ("Date and time of construction: ".toList ++ now)) ::
  ('*' :: "Comments are following an * (asterisk) and written above variables".toList) ::
  natText d.default_dataset ::
  ('*' :: "Number of stations".toList) ::
  natText d.number_of_stations ::
  ('*' :: "Station Name".toList) ::
  joinWith ' ' d.name_of_stations ::
  ('*' :: "Number_of_events seconds_per_timestamp".toList) ::
  (natText d.number_of_events ++ ' ' :: natText d.seconds_per_timestep) ::
  ('*' :: "Start datetime and number of timestamps in the format: yyyy#m#d:#h#m#s:#d#h#m#s".toList) ::
  ('*' :: "Observations per timestamp (row) and per station (column)".toList) ::
  (d.precipitation_events.flatMap serializeEvent)

/-- Modelled from the spec: `BuiSerializer.serialize` — the whole document
rendered as newline-joined text. -/
def serializeBui (loc now : Text) (d : BuiDocument) : Text :=
  joinWith '\n' (buiLines loc now d)

/-- A comment line begins with the reserved marker character. -/
def isCommentLine : Text → Bool
  | [] => false
  | c :: _ => c == '*'

/-- Parse every token of a list as an integer; fail if any token is not an
integer. -/
def parseNatList : List Text → Option (List Nat)
  | [] => some []
  | t :: ts =>
    match parseNat t, parseNatList ts with
    | some n, some ns => some (n :: ns)
    | _, _ => none

/-- Interpret ten header tokens: six timestamp integers and four duration
integers, the latter recomposed into total elapsed seconds.  Any other
token count, or a non-integer token, is a format failure. -/
def parseHeaderTokens (ts : List Text) : Option (DateTime × Nat) :=
  match parseNatList ts with
  | some [y, mo, d, h, mi, s, dd, hh, mm, ss] =>
    some (⟨y, mo, d, h, mi, s⟩, recomposeDuration dd hh mm ss)
  | _ => none

/-- A line matching the exact ten-integer header shape (the parser's
header/data-row tie-break). -/
def isHeaderLine (l : Text) : Bool :=
  (parseHeaderTokens (tokenize l)).isSome

/-- Accumulate data rows under the current event until a line matching the
header shape (or end of input): returns the rows and the remainder. -/
def collectRows : List Text → List Text × List Text
  | [] => ([], [])
  | l :: rest =>
    if isHeaderLine l then ([], l :: rest)
    else
      let p := collectRows rest
      (l :: p.1, p.2)

theorem collectRows_snd_length_le (ls : List Text) :
    (collectRows ls).2.length ≤ ls.length := by
  induction ls with
  | nil => simp [collectRows]
  | cons l rest ih =>
    simp only [collectRows]
    split
    · simp
    · simpa using Nat.le_succ_of_le ih

/-- Event-block splitting with an explicit recursion budget (any budget at
least the number of lines is enough, because each block consumes at least
its header line). -/
def parseEventBlocksAux : Nat → List Text → Option (List BuiEvent)
  | _, [] => some []
  | 0, _ :: _ => none
  | fuel + 1, l :: rest =>
    match parseHeaderTokens (tokenize l) with
    | none => none
    | some (st, dur) =>
      match parseEventBlocksAux fuel (collectRows rest).2 with
      | none => none
      | some es =>
        some (⟨st, dur, ((collectRows rest).1).map tokenize⟩ :: es)

/-- Modelled from the spec: split the post-preamble lines into event
blocks — each block is a ten-integer header line plus the data rows
accumulated up to the next header-shaped line, rows tokenized but kept as
text. -/
def parseEventBlocks (ls : List Text) : Option (List BuiEvent) :=
  parseEventBlocksAux ls.length ls

/-- One or more event blocks (an empty event section is a format failure). -/
def parseBuiEvents (ls : List Text) : Option (List BuiEvent) :=
  match ls with
  | [] => none
  | _ => parseEventBlocks ls

/-- The untyped field mapping produced by the document parser: every value
that later populates a typed scalar field is left as text; only the event
headers are interpreted. -/
structure RawBui where
  default_dataset : Text
  number_of_stations : Text
  name_of_stations : List Text
  number_of_events : Text
  seconds_per_timestep : Text
  precipitation_events : List BuiEvent
deriving DecidableEq, Repr

/-- Modelled from the spec: `BuiParser.parse` — strip comment lines, read
the four preamble lines (checking their token structure but keeping the
tokens as text), then parse the event blocks. -/
def parseBui (text : Text) : Option RawBui :=
  let ls := (splitOnChar '\n' text).filter (fun l => !isCommentLine l)
  match ls with
  | l1 :: l2 :: l3 :: l4 :: rest =>
    match tokenize l1, tokenize l2, tokenize l4 with
    | [t1], [t2], [t4a, t4b] =>
      if (parseNat t1).isSome && (parseNat t2).isSome &&
          (parseNat t4a).isSome && (parseNat t4b).isSome then
        match parseBuiEvents rest with
        | some es => some ⟨t1, t2, tokenize l3, t4a, t4b, es⟩
        | none => none
      else none
    | _, _, _ => none
  | _ => none

/-- Modelled from the spec: the external validation/coercion collaborator,
restricted to what a `.bui` mapping needs — coerce the four textual scalar
fields to integers, keep station names and observation values as text. -/
def coerceBui (m : RawBui) : Option BuiDocument :=
  match parseNat m.default_dataset, parseNat m.number_of_stations,
      parseNat m.number_of_events, parseNat m.seconds_per_timestep with
  | some a, some b, some c, some d =>
    some ⟨a, b, m.name_of_stations, c, d, m.precipitation_events⟩
  | _, _, _, _ => none

/-- Parse then coerce: text to populated document. -/
def parseBuiDoc (text : Text) : Option BuiDocument :=
  (parseBui text).bind coerceBui

/-- Modelled from the spec: `BuiEventParser.parse` — one event block given
as raw text: first line must match the ten-integer header shape; every
following line is a data row, tokenized but kept as text. -/
def buiEventParse (text : Text) : Option BuiEvent :=
  match splitOnChar '\n' text with
  | [] => none
  | l :: rest =>
    match parseHeaderTokens (tokenize l) with
    | none => none
    | some (st, dur) => some ⟨st, dur, rest.map tokenize⟩

/-- A value of the untyped field mapping a parser returns, tagged by kind:
textual values (string, list of strings, rows of strings) versus the
structured timestamp and duration values the event parser builds. -/
inductive FieldValue where
  | text (t : Text)
  | textList (ts : List Text)
  | textRows (rs : List (List Text))
  | timeVal (t : DateTime)
  | durVal (n : Nat)
deriving DecidableEq, Repr

/-- Whether a mapping value is plain text (a string or strings), as opposed
to an already-coerced timestamp or duration. -/
def FieldValue.isTextual : FieldValue → Bool
  | .text _ => true
  | .textList _ => true
  | .textRows _ => true
  | .timeVal _ => false
  | .durVal _ => false

/-- The event parser's returned field mapping, with each value tagged by
kind (the dict `BuiEventParser.parse` returns, as the repository's tests
exhibit it: a datetime under `start_time`, a timedelta under
`timeseries_length`, and literal row text under
`precipitation_per_timestep`). -/
def buiEventParseMapping (text : Text) : Option (List (String × FieldValue)) :=
  (buiEventParse text).map (fun e =>
    [("start_time", FieldValue.timeVal e.start_time),
     ("timeseries_length", FieldValue.durVal e.timeseries_length),
     ("precipitation_per_timestep",
       FieldValue.textRows e.precipitation_per_timestep)])

/-- The document parser's returned field mapping for the preamble fields,
with each value tagged by kind: all of them textual. -/
def buiParseMapping (text : Text) : Option (List (String × FieldValue)) :=
  (parseBui text).map (fun m =>
    [("default_dataset", FieldValue.text m.default_dataset),
     ("number_of_stations", FieldValue.text m.number_of_stations),
     ("name_of_stations", FieldValue.textList m.name_of_stations),
     ("number_of_events", FieldValue.text m.number_of_events),
     ("seconds_per_timestep", FieldValue.text m.seconds_per_timestep)])

/-- A token that round-trips through whitespace-splitting and
comment-stripping: non-empty, free of spaces and newlines, and free of the
comment marker. -/
def validToken (t : Text) : Bool :=
  !t.isEmpty && t.all (fun c => !(c == ' ' || c == '\n' || c == '*'))

/-- A data row must not match the exact ten-integer header shape, or the
parser's tie-break would read it as the start of a new event. -/
def rowNotHeader (r : List Text) : Bool :=
  !(r.length == 10 && r.all (fun t => (parseNat t).isSome))

def validRow (r : List Text) : Bool :=
  r.all validToken && rowNotHeader r

def validEvent (e : BuiEvent) : Bool :=
  e.precipitation_per_timestep.all validRow

/-- Valid field values for a document: station names and observation values
are well-formed tokens, no row is header-shaped, and there is at least one
event. -/
def validDoc (d : BuiDocument) : Bool :=
  d.name_of_stations.all validToken &&
  d.precipitation_events.all validEvent &&
  !d.precipitation_events.isEmpty

theorem validToken_spec {t : Text} (h : validToken t = true) :
    t ≠ [] ∧ ' ' ∉ t ∧ '\n' ∉ t ∧ '*' ∉ t := by
  unfold validToken at h
  rw [Bool.and_eq_true] at h
  obtain ⟨hne, hall⟩ := h
  rw [List.all_eq_true] at hall
  refine ⟨?_, ?_, ?_, ?_⟩
  · intro he; subst he; simp at hne
  · intro hm; have := hall _ hm; simp at this
  · intro hm; have := hall _ hm; simp at this
  · intro hm; have := hall _ hm; simp at this

theorem tokenize_single {t : Text} (h1 : t ≠ []) (h2 : ' ' ∉ t) :
    tokenize t = [t] := by
  unfold tokenize
  rw [splitOnChar_of_not_mem h2]
  simp [h1]

theorem parseNatList_length {ts : List Text} {ns : List Nat}
    (h : parseNatList ts = some ns) : ns.length = ts.length := by
  induction ts generalizing ns with
  | nil => simp [parseNatList] at h; simp [← h]
  | cons t ts ih =>
    simp only [parseNatList] at h
    cases hp : parseNat t with
    | none => rw [hp] at h; simp at h
    | some n =>
      rw [hp] at h
      cases hl : parseNatList ts with
      | none => rw [hl] at h; simp at h
      | some ms =>
        rw [hl] at h
        simp only [Option.some.injEq] at h
        simp [← h, ih hl]

theorem parseNatList_mem_isSome {ts : List Text} {ns : List Nat}
    (h : parseNatList ts = some ns) : ∀ t ∈ ts, (parseNat t).isSome := by
  induction ts generalizing ns with
  | nil => simp
  | cons t ts ih =>
    simp only [parseNatList] at h
    cases hp : parseNat t with
    | none => rw [hp] at h; simp at h
    | some n =>
      rw [hp] at h
      cases hl : parseNatList ts with
      | none => rw [hl] at h; simp at h
      | some ms =>
        intro x hx
        rcases List.mem_cons.1 hx with rfl | hmem
        · simp [hp]
        · exact ih hl x hmem

theorem parseNatList_map_natText (ns : List Nat) :
    parseNatList (ns.map natText) = some ns := by
  induction ns with
  | nil => rfl
  | cons n ns ih =>
    simp only [List.map_cons, parseNatList, parseNat_natText, ih]

theorem natText_no_star {n : Nat} : '*' ∉ natText n := by
  intro h
  obtain ⟨d, hd, he⟩ := mem_natText h
  exact (digitChar_plain hd).2.2 he.symm

theorem recompose_decompose (total : Nat) :
    recomposeDuration (total / 86400) (total % 86400 / 3600)
      (total % 86400 % 3600 / 60) (total % 86400 % 3600 % 60) = total := by
  unfold recomposeDuration
  omega

theorem headerTokens_eq_map (e : BuiEvent) :
    headerTokens e = List.map natText
      [e.start_time.year, e.start_time.month, e.start_time.day,
       e.start_time.hour, e.start_time.minute, e.start_time.second,
       e.timeseries_length / 86400, e.timeseries_length % 86400 / 3600,
       e.timeseries_length % 86400 % 3600 / 60,
       e.timeseries_length % 86400 % 3600 % 60] := rfl

theorem parseHeaderTokens_headerTokens (e : BuiEvent) :
    parseHeaderTokens (headerTokens e) =
      some (e.start_time, e.timeseries_length) := by
  rw [headerTokens_eq_map]
  unfold parseHeaderTokens
  rw [parseNatList_map_natText]
  simp only [recompose_decompose]

theorem tokenize_serializeEventHeader (e : BuiEvent) :
    tokenize (serializeEventHeader e) = headerTokens e := by
  unfold serializeEventHeader
  apply tokenize_joinWith
  intro t ht
  rw [headerTokens_eq_map] at ht
  obtain ⟨n, _, rfl⟩ := List.mem_map.1 ht
  exact ⟨natText_ne_nil n, natText_no_space⟩

theorem isHeaderLine_serializeEventHeader (e : BuiEvent) :
    isHeaderLine (serializeEventHeader e) = true := by
  unfold isHeaderLine
  rw [tokenize_serializeEventHeader, parseHeaderTokens_headerTokens]
  rfl

theorem parseHeaderTokens_some_shape {ts : List Text} {x : DateTime × Nat}
    (h : parseHeaderTokens ts = some x) :
    ts.length = 10 ∧ ∀ t ∈ ts, (parseNat t).isSome := by
  unfold parseHeaderTokens at h
  split at h
  · rename_i y mo d hr mi s dd hh mm ss heq
    refine ⟨?_, parseNatList_mem_isSome heq⟩
    have := parseNatList_length heq
    simpa using this.symm
  · exact absurd h (by simp)

theorem validRow_not_header {r : List Text} (h : validRow r = true) :
    parseHeaderTokens r = none := by
  cases hp : parseHeaderTokens r with
  | none => rfl
  | some x =>
    obtain ⟨hlen, hsome⟩ := parseHeaderTokens_some_shape hp
    unfold validRow rowNotHeader at h
    rw [Bool.and_eq_true] at h
    have h2 := h.2
    rw [Bool.not_eq_eq_eq_not, Bool.not_true, Bool.and_eq_false_iff] at h2
    rcases h2 with h2 | h2
    · rw [hlen] at h2; simp at h2
    · rw [List.all_eq_false] at h2
      obtain ⟨t, ht, hf⟩ := h2
      exact (hf (hsome t ht)).elim

theorem mem_joinWith {c x : Char} {ls : List Text}
    (h : x ∈ joinWith c ls) : x = c ∨ ∃ l ∈ ls, x ∈ l := by
  induction ls with
  | nil => simp [joinWith] at h
  | cons l rest ih =>
    cases rest with
    | nil => exact Or.inr ⟨l, by simp, h⟩
    | cons r rs =>
      rw [show joinWith c (l :: r :: rs) = l ++ c :: joinWith c (r :: rs)
        from rfl] at h
      rcases List.mem_append.1 h with h1 | h2
      · exact Or.inr ⟨l, by simp, h1⟩
      · rcases List.mem_cons.1 h2 with rfl | h3
        · exact Or.inl rfl
        · rcases ih h3 with h4 | ⟨l2, hl2, hx⟩
          · exact Or.inl h4
          · exact Or.inr ⟨l2, List.mem_cons_of_mem _ hl2, hx⟩

theorem joinWith_cons_decomp (c : Char) (t : Text) (ts : List Text) :
    ∃ r, joinWith c (t :: ts) = t ++ r := by
  cases ts with
  | nil => exact ⟨[], by simp [joinWith]⟩
  | cons u us => exact ⟨c :: joinWith c (u :: us), rfl⟩

theorem isCommentLine_append_of_head {t : Text} (r : Text) (h1 : t ≠ [])
    (h2 : '*' ∉ t) : isCommentLine (t ++ r) = false := by
  cases t with
  | nil => exact absurd rfl h1
  | cons x xs =>
    simp only [List.cons_append, isCommentLine]
    have hx : x ≠ '*' := fun e => h2 (by simp [e])
    simp [hx]

theorem isCommentLine_natText_append (n : Nat) (r : Text) :
    isCommentLine (natText n ++ r) = false :=
  isCommentLine_append_of_head r (natText_ne_nil n) natText_no_star

theorem isCommentLine_natText (n : Nat) : isCommentLine (natText n) = false := by
  simpa using isCommentLine_natText_append n []

theorem collectRows_append {rows rem : List Text}
    (hrows : ∀ l ∈ rows, isHeaderLine l = false)
    (hrem : rem = [] ∨ ∃ h t, rem = h :: t ∧ isHeaderLine h = true) :
    collectRows (rows ++ rem) = (rows, rem) := by
  induction rows with
  | nil =>
    rcases hrem with rfl | ⟨h, t, rfl, hh⟩
    · rfl
    · simp [collectRows, hh]
  | cons l ls ih =>
    have hl := hrows l (by simp)
    simp only [List.cons_append, collectRows, hl, Bool.false_eq_true,
      if_false, List.append_eq]
    rw [ih (fun x hx => hrows x (List.mem_cons_of_mem _ hx))]

theorem validRow_tokenize {r : List Text} (h : validRow r = true) :
    tokenize (joinWith ' ' r) = r := by
  apply tokenize_joinWith
  intro t ht
  have hv : validToken t = true := by
    unfold validRow at h
    rw [Bool.and_eq_true] at h
    exact (List.all_eq_true.1 h.1) t ht
  obtain ⟨h1, h2, _, _⟩ := validToken_spec hv
  exact ⟨h1, h2⟩

theorem validRow_line_not_header {r : List Text} (h : validRow r = true) :
    isHeaderLine (joinWith ' ' r) = false := by
  unfold isHeaderLine
  rw [validRow_tokenize h, validRow_not_header h]
  rfl

theorem validEvent_rows {e : BuiEvent} (h : validEvent e = true) :
    ∀ r ∈ e.precipitation_per_timestep, validRow r = true := by
  unfold validEvent at h
  exact List.all_eq_true.1 h

theorem flatMap_serializeEvent_cons (e : BuiEvent) (es : List BuiEvent) :
    (e :: es).flatMap serializeEvent =
      serializeEventHeader e ::
        (e.precipitation_per_timestep.map (joinWith ' ') ++
          es.flatMap serializeEvent) := by
  simp [serializeEvent, List.flatMap_cons]

theorem parseEventBlocksAux_flatMap {events : List BuiEvent}
    (h : ∀ e ∈ events, validEvent e = true) :
    ∀ fuel, (events.flatMap serializeEvent).length ≤ fuel →
      parseEventBlocksAux fuel (events.flatMap serializeEvent) =
        some events := by
  induction events with
  | nil => intro fuel _; cases fuel <;> rfl
  | cons e es ih =>
    intro fuel hf
    have he := h e (by simp)
    have hrows := validEvent_rows he
    have hnh : ∀ l ∈ e.precipitation_per_timestep.map (joinWith ' '),
        isHeaderLine l = false := by
      intro l hl
      obtain ⟨r, hr, rfl⟩ := List.mem_map.1 hl
      exact validRow_line_not_header (hrows r hr)
    have hrem : es.flatMap serializeEvent = [] ∨
        ∃ hline t2, es.flatMap serializeEvent = hline :: t2 ∧
          isHeaderLine hline = true := by
      cases es with
      | nil => exact Or.inl rfl
      | cons e2 es2 =>
        exact Or.inr ⟨serializeEventHeader e2,
          e2.precipitation_per_timestep.map (joinWith ' ') ++
            es2.flatMap serializeEvent,
          flatMap_serializeEvent_cons e2 es2,
          isHeaderLine_serializeEventHeader e2⟩
    have hcoll := collectRows_append hnh hrem
    rw [flatMap_serializeEvent_cons] at hf ⊢
    cases fuel with
    | zero => simp at hf
    | succ f =>
      have hf2 : (es.flatMap serializeEvent).length ≤ f := by
        simp only [List.length_cons, List.length_append] at hf
        omega
      simp only [parseEventBlocksAux, tokenize_serializeEventHeader,
        parseHeaderTokens_headerTokens]
      simp only [hcoll]
      rw [ih (fun x hx => h x (List.mem_cons_of_mem _ hx)) f hf2]
      have hmap :
          (e.precipitation_per_timestep.map (joinWith ' ')).map tokenize
            = e.precipitation_per_timestep := by
        rw [List.map_map]
        have hcong : e.precipitation_per_timestep.map
              (tokenize ∘ joinWith ' ') =
            e.precipitation_per_timestep.map id :=
          List.map_congr_left (fun r hr => validRow_tokenize (hrows r hr))
        rw [hcong, List.map_id]
      rw [hmap]

theorem parseEventBlocks_flatMap {events : List BuiEvent}
    (h : ∀ e ∈ events, validEvent e = true) :
    parseEventBlocks (events.flatMap serializeEvent) = some events :=
  parseEventBlocksAux_flatMap h _ (le_refl _)

theorem joinWith_space_no_newline {ts : List Text}
    (h : ∀ t ∈ ts, '\n' ∉ t) : '\n' ∉ joinWith ' ' ts := by
  intro hm
  rcases mem_joinWith hm with he | ⟨l, hl, hx⟩
  · exact absurd he (by decide)
  · exact h l hl hx

theorem serializeEventHeader_no_newline (e : BuiEvent) :
    '\n' ∉ serializeEventHeader e := by
  apply joinWith_space_no_newline
  intro t ht
  rw [headerTokens_eq_map] at ht
  obtain ⟨n, _, rfl⟩ := List.mem_map.1 ht
  exact natText_no_newline

theorem serializeEventHeader_not_comment (e : BuiEvent) :
    isCommentLine (serializeEventHeader e) = false := by
  unfold serializeEventHeader
  rw [headerTokens_eq_map, List.map_cons]
  obtain ⟨r, hr⟩ := joinWith_cons_decomp ' ' (natText e.start_time.year) _
  rw [hr]
  exact isCommentLine_natText_append _ r

theorem validRow_mem_validToken {r : List Text} (h : validRow r = true) :
    ∀ t ∈ r, validToken t = true := by
  unfold validRow at h
  rw [Bool.and_eq_true] at h
  exact List.all_eq_true.1 h.1

theorem validRow_line_no_newline {r : List Text} (h : validRow r = true) :
    '\n' ∉ joinWith ' ' r := by
  apply joinWith_space_no_newline
  intro t ht
  exact (validToken_spec (validRow_mem_validToken h t ht)).2.2.1

/-- A line of space-joined well-formed tokens never starts with the comment
marker. -/
theorem tokensLine_not_comment {ts : List Text}
    (h : ∀ t ∈ ts, validToken t = true) :
    isCommentLine (joinWith ' ' ts) = false := by
  cases ts with
  | nil => rfl
  | cons t ts2 =>
    obtain ⟨rr, hrr⟩ := joinWith_cons_decomp ' ' t ts2
    rw [hrr]
    obtain ⟨h1, _, _, h4⟩ := validToken_spec (h t (by simp))
    exact isCommentLine_append_of_head rr h1 h4

theorem eventLines_no_newline {events : List BuiEvent}
    (h : ∀ e ∈ events, validEvent e = true) :
    ∀ l ∈ events.flatMap serializeEvent, '\n' ∉ l := by
  intro l hl
  rw [List.mem_flatMap] at hl
  obtain ⟨e, he, hle⟩ := hl
  unfold serializeEvent at hle
  rcases List.mem_cons.1 hle with rfl | hrow
  · exact serializeEventHeader_no_newline e
  · obtain ⟨r, hr, rfl⟩ := List.mem_map.1 hrow
    exact validRow_line_no_newline (validEvent_rows (h e he) r hr)

theorem eventLines_not_comment {events : List BuiEvent}
    (h : ∀ e ∈ events, validEvent e = true) :
    ∀ l ∈ events.flatMap serializeEvent, isCommentLine l = false := by
  intro l hl
  rw [List.mem_flatMap] at hl
  obtain ⟨e, he, hle⟩ := hl
  unfold serializeEvent at hle
  rcases List.mem_cons.1 hle with rfl | hrow
  · exact serializeEventHeader_not_comment e
  · obtain ⟨r, hr, rfl⟩ := List.mem_map.1 hrow
    exact tokensLine_not_comment
      (validRow_mem_validToken (validEvent_rows (h e he) r hr))

theorem validDoc_names {d : BuiDocument} (hd : validDoc d = true) :
    ∀ t ∈ d.name_of_stations, validToken t = true := by
  unfold validDoc at hd
  rw [Bool.and_eq_true, Bool.and_eq_true] at hd
  exact List.all_eq_true.1 hd.1.1

theorem validDoc_events {d : BuiDocument} (hd : validDoc d = true) :
    ∀ e ∈ d.precipitation_events, validEvent e = true := by
  unfold validDoc at hd
  rw [Bool.and_eq_true, Bool.and_eq_true] at hd
  exact List.all_eq_true.1 hd.1.2

theorem validDoc_events_ne_nil {d : BuiDocument} (hd : validDoc d = true) :
    d.precipitation_events ≠ [] := by
  unfold validDoc at hd
  rw [Bool.and_eq_true, Bool.and_eq_true] at hd
  have := hd.2
  intro he
  rw [he] at this
  simp at this

theorem star_line_no_newline {lit rest : Text} (h1 : '\n' ∉ lit)
    (h2 : '\n' ∉ rest) : '\n' ∉ ('*' :: (lit ++ rest)) := by
  intro hm
  rcases List.mem_cons.1 hm with he | hm2
  · exact absurd he (by decide)
  · rcases List.mem_append.1 hm2 with h3 | h3
    · exact h1 h3
    · exact h2 h3

theorem natText_pair_no_newline (a b : Nat) :
    '\n' ∉ (natText a ++ ' ' :: natText b) := by
  intro hm
  rcases List.mem_append.1 hm with h | h
  · exact natText_no_newline h
  · rcases List.mem_cons.1 h with he | h2
    · exact absurd he (by decide)
    · exact natText_no_newline h2

theorem buiLines_no_newline {loc now : Text} {d : BuiDocument}
    (hl : '\n' ∉ loc) (hn : '\n' ∉ now) (hd : validDoc d = true) :
    ∀ l ∈ buiLines loc now d, '\n' ∉ l := by
  intro l hlm
  unfold buiLines at hlm
  simp only [List.mem_cons] at hlm
  rcases hlm with rfl | rfl | rfl | rfl | rfl | rfl | rfl | rfl | rfl |
      rfl | rfl | rfl | hev
  · exact star_line_no_newline (by decide) hl
  · exact star_line_no_newline (by decide) hn
  · decide
  · exact natText_no_newline
  · decide
  · exact natText_no_newline
  · decide
  · exact joinWith_space_no_newline
      (fun t ht => (validToken_spec (validDoc_names hd t ht)).2.2.1)
  · decide
  · exact natText_pair_no_newline _ _
  · decide
  · decide
  · exact eventLines_no_newline (validDoc_events hd) l hev

theorem filter_buiLines {loc now : Text} {d : BuiDocument}
    (hd : validDoc d = true) :
    (buiLines loc now d).filter (fun l => !isCommentLine l) =
      natText d.default_dataset :: natText d.number_of_stations ::
      joinWith ' ' d.name_of_stations ::
      (natText d.number_of_events ++ ' ' :: natText d.seconds_per_timestep) ::
      d.precipitation_events.flatMap serializeEvent := by
  have hstar : ∀ x : Text, isCommentLine ('*' :: x) = true := fun _ => rfl
  have hnames := tokensLine_not_comment (validDoc_names hd)
  unfold buiLines
  simp only [List.filter_cons, hstar, isCommentLine_natText, hnames,
    isCommentLine_natText_append, Bool.not_true, Bool.not_false,
    Bool.false_eq_true, if_false, if_true, reduceIte]
  have htail : (d.precipitation_events.flatMap serializeEvent).filter
      (fun l => !isCommentLine l) =
      d.precipitation_events.flatMap serializeEvent :=
    List.filter_eq_self.2 (fun l hl => by
      rw [eventLines_not_comment (validDoc_events hd) l hl]; rfl)
  rw [htail]

theorem parseBuiEvents_flatMap {events : List BuiEvent}
    (hne : events ≠ []) (h : ∀ e ∈ events, validEvent e = true) :
    parseBuiEvents (events.flatMap serializeEvent) = some events := by
  cases events with
  | nil => exact absurd rfl hne
  | cons e es =>
    rw [flatMap_serializeEvent_cons]
    unfold parseBuiEvents
    rw [← flatMap_serializeEvent_cons]
    exact parseEventBlocks_flatMap h

theorem buiLines_ne_nil (loc now : Text) (d : BuiDocument) :
    buiLines loc now d ≠ [] := by
  unfold buiLines
  simp

theorem tokenize_natText_pair (a b : Nat) :
    tokenize (natText a ++ ' ' :: natText b) = [natText a, natText b] := by
  rw [show (natText a ++ ' ' :: natText b) =
    joinWith ' ' [natText a, natText b] from rfl]
  apply tokenize_joinWith
  intro t ht
  simp only [List.mem_cons, List.mem_singleton] at ht
  rcases ht with rfl | rfl | h
  · exact ⟨natText_ne_nil a, natText_no_space⟩
  · exact ⟨natText_ne_nil b, natText_no_space⟩
  · simp at h

/-- Parsing the serialized text of a valid document, then coercing the
textual scalar fields, reproduces the document exactly — field by field,
including station names, the duration decomposition and the literal
observation-value text. -/
theorem parseBuiDoc_serializeBui {loc now : Text} {d : BuiDocument}
    (hd : validDoc d = true) (hl : '\n' ∉ loc) (hn : '\n' ∉ now) :
    parseBuiDoc (serializeBui loc now d) = some d := by
  unfold parseBuiDoc serializeBui parseBui
  rw [splitOnChar_joinWith (buiLines_ne_nil loc now d)
    (buiLines_no_newline hl hn hd)]
  rw [filter_buiLines hd]
  have hnames : tokenize (joinWith ' ' d.name_of_stations) =
      d.name_of_stations := by
    apply tokenize_joinWith
    intro t ht
    obtain ⟨h1, h2, _, _⟩ := validToken_spec (validDoc_names hd t ht)
    exact ⟨h1, h2⟩
  simp only [tokenize_single (natText_ne_nil d.default_dataset)
      natText_no_space,
    tokenize_single (natText_ne_nil d.number_of_stations) natText_no_space,
    tokenize_natText_pair, parseNat_natText, Option.isSome_some,
    Bool.and_self, if_true,
    parseBuiEvents_flatMap (validDoc_events_ne_nil hd) (validDoc_events hd),
    hnames]
  rw [Option.some_bind]
  unfold coerceBui
  simp only [parseNat_natText]

end HydrolibBui

namespace HydrolibModel

/-- A value held in a Python-dict field mapping: a plain field value or a
filesystem path. -/
inductive MVal where
  | textV (s : String)
  | pathV (p : String)
deriving DecidableEq, Repr

/-- A Python dict keyed by field name, as the map it denotes. -/
def Mapping := String → Option MVal

/-- `base.update(upd)` on Python dicts: keys present in `upd` win. -/
def Mapping.update (base upd : Mapping) : Mapping :=
  fun k =>
    match upd k with
    | some v => some v
    | none => base k

/-- `d[key] = v` on a Python dict. -/
def Mapping.set (m : Mapping) (key : String) (v : MVal) : Mapping :=
  fun k => if k = key then some v else m k

/-- `del d[key]`-style removal (used to model pydantic handing the
`filepath` entry to the named parameter and the rest to `**kwargs`). -/
def Mapping.remove (m : Mapping) (key : String) : Mapping :=
  fun k => if k = key then none else m k

def emptyMapping : Mapping := fun _ => none

/-- `FileModel.__init__` of `hydrolib/core/basemodel.py`: when a location
is given, obtain the parsed mapping (`data = self._load(filepath)`), store
the location in it under its reserved key (`data["filepath"] = filepath`),
then `kwargs.update(data)` — so the parsed mapping is merged on top of the
explicitly supplied fields — and hand the merged mapping to pydantic
validation (`super().__init__(**kwargs)`).  Without a location the
explicit fields go to validation unchanged. -/
def fileModelInit (parse : String → Mapping) (filepath : Option String)
    (kwargs : Mapping) : Mapping :=
  match filepath with
  | some fp =>
    Mapping.update kwargs ((parse fp).set "filepath" (MVal.pathV fp))
  | none => kwargs

/-- The `Any` value pydantic hands to `FileModel.validate` for a field
declared with a `FileModel` type. -/
inductive ValidateInput where
  | pathVal (p : String)
  | dictVal (m : Mapping)

/-- `FileModel.validate` of `hydrolib/core/basemodel.py`: a bare `Path` is
wrapped into the mapping with the path under "filepath" before delegating
to pydantic's own validation; anything else passes through. -/
def fileModelValidate : ValidateInput → ValidateInput
  | .pathVal p => .dictVal (Mapping.set emptyMapping "filepath" (MVal.pathV p))
  | v => v

/-- Modelled from the spec: pydantic's `super().validate` boundary — a dict
constructs the model through `FileModel.__init__`, with `filepath` drawn
from the mapping (bound to the named parameter) and the remaining entries
as keyword fields; a bare Path reaching this boundary would be rejected. -/
def superValidate (parse : String → Mapping) : ValidateInput → Option Mapping
  | .dictVal m =>
    match m "filepath" with
    | some (MVal.pathV p) =>
      some (fileModelInit parse (some p) (m.remove "filepath"))
    | _ => some (fileModelInit parse none m)
  | .pathVal _ => none

/-- The whole validation path for a nested `FileModel` field:
`FileModel.validate` then the pydantic boundary. -/
def fileModelValidateFull (parse : String → Mapping)
    (v : ValidateInput) : Option Mapping :=
  superValidate parse (fileModelValidate v)

end HydrolibModel

namespace HydrolibSave

/-- A field value of a generic file-backed entity: a plain value
(flattened verbatim), Python `None` (excluded from the outgoing mapping by
`exclude_none`), or a nested file-backed model held by reference into the
object heap. -/
inductive GenValue where
  | prim (v : String)
  | noneVal
  | child (id : Nat)
deriving DecidableEq, Repr

/-- A generic file-backed entity: optional bound location, the format's
default file name and extension, and its declared fields in declaration
order. -/
structure GenModel where
  filepath : Option String
  fname : String
  ext : String
  fields : List (String × GenValue)
deriving DecidableEq, Repr

/-- The object heap: entities addressed by identity. -/
abbrev Store := List (Nat × GenModel)

def lookupStore : Store → Nat → Option GenModel
  | [], _ => none
  | (i, m) :: rest, j => if i = j then some m else lookupStore rest j

def updateStore : Store → Nat → GenModel → Store
  | [], _, _ => []
  | (i, m) :: rest, j, m2 =>
    if i = j then (i, m2) :: rest else (i, m) :: updateStore rest j m2

/-- A value of the flattened outgoing mapping handed to the serializer:
a plain value, a resolved child location, or a nested structure (what
generic flattening would produce for a child that was not excluded). -/
inductive DataVal where
  | prim (v : String)
  | pathV (p : String)
  | nested (id : Nat)
deriving DecidableEq, Repr

abbrev DataMap := List (String × DataVal)

/-- `self.dict(exclude=exclude, exclude_none=True)`: flatten the fields in
declaration order, dropping excluded names and absent values. -/
def flattenFields (fields : List (String × GenValue))
    (exclude : List String) : DataMap :=
  fields.filterMap (fun nv =>
    if nv.1 ∈ exclude then none
    else
      match nv.2 with
      | GenValue.prim v => some (nv.1, DataVal.prim v)
      | GenValue.noneVal => none
      | GenValue.child c => some (nv.1, DataVal.nested c))

/-- `folder / name` on paths. -/
def joinPath (folder name : String) : String := folder ++ "/" ++ name

/-- Result of a recursive save: the updated heap, the files written in
write order (location paired with the serialized mapping), and the
resolved location returned; or exhaustion of the recursion budget with the
files written so far. -/
inductive SaveRes where
  | ok (store : Store) (written : List (String × DataMap)) (path : String)
  | fail (written : List (String × DataMap))
deriving DecidableEq, Repr

/-- Result of the child-saving loop over an entity's fields: the updated
heap, the files written by the children, and the `filemodel_fields`
name-to-location entries; or a failed child save. -/
inductive FieldsRes where
  | ok (store : Store) (written : List (String × DataMap))
      (fmf : List (String × String))
  | fail (written : List (String × DataMap))
deriving DecidableEq, Repr

/-- The `for name, value in self` loop of `FileModel.save`: each nested
file-backed field is saved first through `sv` (the recursive save at the
remaining budget), contributing its resolved location to
`filemodel_fields`; other fields are passed over. -/
def saveFieldsWith (sv : Store → Nat → String → SaveRes) :
    Store → List (String × GenValue) → String → FieldsRes
  | store, [], _ => FieldsRes.ok store [] []
  | store, (n, v) :: rest, folder =>
    match v with
    | GenValue.child c =>
      match sv store c folder with
      | SaveRes.ok store2 w p =>
        match saveFieldsWith sv store2 rest folder with
        | FieldsRes.ok store3 w2 fmf =>
          FieldsRes.ok store3 (w ++ w2) ((n, p) :: fmf)
        | FieldsRes.fail w2 => FieldsRes.fail (w ++ w2)
      | SaveRes.fail w => FieldsRes.fail w
    | _ => saveFieldsWith sv store rest folder

/-- `if not self.filepath: self.filepath = folder / self._generate_name()`:
the bound location when present, else the generated default
`folder / _filename() ++ _ext()`. -/
def resolveLocation (folder : String) (m : GenModel) : String :=
  match m.filepath with
  | some p => p
  | none => joinPath folder (m.fname ++ m.ext)

/-- `FileModel.save` of `hydrolib/core/basemodel.py`, over the object heap
and with an explicit recursion budget (the Python recursion has neither a
bound nor any cycle detection; `fail` is exhaustion of the budget):
resolve the location if absent, save every nested file-backed field first
(recursively, same folder), build the outgoing mapping by flattening the
remaining fields and adding the children's resolved locations, record the
write, and return the resolved location. -/
def saveModel : Nat → Store → Nat → String → SaveRes
  | 0, _, _, _ => SaveRes.fail []
  | fuel + 1, store, id, folder =>
    match lookupStore store id with
    | none => SaveRes.fail []
    | some m =>
      let fp := resolveLocation folder m
      let store1 := updateStore store id { m with filepath := some fp }
      match saveFieldsWith (saveModel fuel) store1 m.fields folder with
      | FieldsRes.ok store2 written fmf =>
        let data :=
          flattenFields m.fields ("filepath" :: fmf.map Prod.fst) ++
            fmf.map (fun nv => (nv.1, DataVal.pathV nv.2))
        SaveRes.ok store2 (written ++ [(fp, data)]) fp
      | FieldsRes.fail written => SaveRes.fail written

/-- What one save may change about one entity: nothing but `filepath`, and
that only from absent to the default generated under `folder`. -/
def sameShape (folder : String) (m m2 : GenModel) : Prop :=
  m2.fields = m.fields ∧ m2.fname = m.fname ∧ m2.ext = m.ext ∧
    ((∃ p, m.filepath = some p ∧ m2.filepath = some p) ∨
      (m.filepath = none ∧
        (m2.filepath = none ∨
          m2.filepath = some (joinPath folder (m.fname ++ m.ext)))))

/-- The per-entity frame property over the whole heap. -/
def frameStores (folder : String) (s s2 : Store) : Prop :=
  ∀ j m, lookupStore s j = some m →
    ∃ m2, lookupStore s2 j = some m2 ∧ sameShape folder m m2

theorem sameShape_refl (folder : String) (m : GenModel) :
    sameShape folder m m := by
  refine ⟨rfl, rfl, rfl, ?_⟩
  cases hp : m.filepath with
  | some p => exact Or.inl ⟨p, rfl, rfl⟩
  | none => exact Or.inr ⟨rfl, Or.inl rfl⟩

theorem sameShape_trans {folder : String} {m m2 m3 : GenModel}
    (h1 : sameShape folder m m2) (h2 : sameShape folder m2 m3) :
    sameShape folder m m3 := by
  obtain ⟨hf1, hn1, he1, hp1⟩ := h1
  obtain ⟨hf2, hn2, he2, hp2⟩ := h2
  refine ⟨hf2.trans hf1, hn2.trans hn1, he2.trans he1, ?_⟩
  rcases hp1 with ⟨p, hmp, h2p⟩ | ⟨hmn, h2n⟩
  · rcases hp2 with ⟨q, h2q, h3q⟩ | ⟨h2none, _⟩
    · rw [h2p] at h2q
      exact Or.inl ⟨p, hmp, by rw [h3q]; exact h2q.symm⟩
    · rw [h2p] at h2none; cases h2none
  · rcases h2n with h2none | h2gen
    · rcases hp2 with ⟨q, h2q, _⟩ | ⟨_, h3⟩
      · rw [h2none] at h2q; cases h2q
      · refine Or.inr ⟨hmn, ?_⟩
        rcases h3 with h3n | h3g
        · exact Or.inl h3n
        · exact Or.inr (by rw [h3g, hn1, he1])
    · rcases hp2 with ⟨q, h2q, h3q⟩ | ⟨h2none, _⟩
      · rw [h2gen] at h2q
        exact Or.inr ⟨hmn, Or.inr (by rw [h3q]; exact h2q.symm)⟩
      · rw [h2gen] at h2none; cases h2none

theorem frameStores_refl (folder : String) (s : Store) :
    frameStores folder s s :=
  fun _ m h => ⟨m, h, sameShape_refl folder m⟩

theorem frameStores_trans {folder : String} {s s2 s3 : Store}
    (h1 : frameStores folder s s2) (h2 : frameStores folder s2 s3) :
    frameStores folder s s3 := by
  intro j m hj
  obtain ⟨m2, hm2, hs2⟩ := h1 j m hj
  obtain ⟨m3, hm3, hs3⟩ := h2 j m2 hm2
  exact ⟨m3, hm3, sameShape_trans hs2 hs3⟩

theorem lookupStore_update_self {s : Store} {i : Nat} {m0 : GenModel}
    (m : GenModel) (h : lookupStore s i = some m0) :
    lookupStore (updateStore s i m) i = some m := by
  induction s with
  | nil => simp [lookupStore] at h
  | cons e rest ih =>
    obtain ⟨j, m1⟩ := e
    by_cases hij : j = i
    · subst hij
      simp [lookupStore, updateStore]
    · simp only [lookupStore, updateStore, if_neg hij] at h ⊢
      exact ih h

theorem lookupStore_update_ne {s : Store} {i j : Nat} (m : GenModel)
    (h : i ≠ j) : lookupStore (updateStore s i m) j = lookupStore s j := by
  induction s with
  | nil => rfl
  | cons e rest ih =>
    obtain ⟨k, m1⟩ := e
    by_cases hki : k = i
    · subst hki
      simp only [updateStore, if_pos rfl, lookupStore, if_neg h]
    · simp only [updateStore, if_neg hki, lookupStore]
      by_cases hkj : k = j
      · rw [if_pos hkj, if_pos hkj]
      · rw [if_neg hkj, if_neg hkj]
        exact ih

theorem frame_update_resolve {store : Store} {id : Nat} {m : GenModel}
    {folder : String} (h : lookupStore store id = some m) :
    frameStores folder store
      (updateStore store id { m with filepath := some (resolveLocation folder m) }) := by
  intro j m0 hj
  by_cases hij : id = j
  · subst hij
    rw [h] at hj
    have hm : m = m0 := Option.some.inj hj
    subst hm
    refine ⟨_, lookupStore_update_self _ h, rfl, rfl, rfl, ?_⟩
    cases hp : m.filepath with
    | some p =>
      exact Or.inl ⟨p, rfl, by simp [resolveLocation, hp]⟩
    | none =>
      exact Or.inr ⟨rfl, Or.inr (by simp [resolveLocation, hp])⟩
  · exact ⟨m0, by rw [lookupStore_update_ne _ hij]; exact hj,
      sameShape_refl folder m0⟩

theorem saveFieldsWith_frame {sv : Store → Nat → String → SaveRes}
    {folder : String}
    (hsv : ∀ store c s2 w p, sv store c folder = SaveRes.ok s2 w p →
      frameStores folder store s2) :
    ∀ fields store s2 w fmf,
      saveFieldsWith sv store fields folder = FieldsRes.ok s2 w fmf →
      frameStores folder store s2 := by
  intro fields
  induction fields with
  | nil =>
    intro store s2 w fmf h
    simp only [saveFieldsWith] at h
    injection h with h1 h2 h3
    subst h1
    exact frameStores_refl folder store
  | cons nv rest ih =>
    intro store s2 w fmf h
    obtain ⟨n, v⟩ := nv
    cases v with
    | prim pv =>
      simp only [saveFieldsWith] at h
      exact ih store s2 w fmf h
    | noneVal =>
      simp only [saveFieldsWith] at h
      exact ih store s2 w fmf h
    | child c =>
      simp only [saveFieldsWith] at h
      cases hc : sv store c folder with
      | fail w1 => simp only [hc] at h; cases h
      | ok s1 w1 p1 =>
        simp only [hc] at h
        cases hr : saveFieldsWith sv s1 rest folder with
        | fail w2 => simp only [hr] at h; cases h
        | ok s3 w2 fmf2 =>
          simp only [hr] at h
          injection h with h1 h2 h3
          subst h1
          exact frameStores_trans (hsv store c s1 w1 p1 hc)
            (ih s1 s3 w2 fmf2 hr)

theorem saveModel_frame :
    ∀ fuel store id folder s2 w p,
      saveModel fuel store id folder = SaveRes.ok s2 w p →
      frameStores folder store s2 := by
  intro fuel
  induction fuel with
  | zero => intro store id folder s2 w p h; simp [saveModel] at h
  | succ f ih =>
    intro store id folder s2 w p h
    simp only [saveModel] at h
    cases hm : lookupStore store id with
    | none => simp only [hm] at h; cases h
    | some m =>
      simp only [hm] at h
      cases hsf : saveFieldsWith (saveModel f)
          (updateStore store id
            { m with filepath := some (resolveLocation folder m) })
          m.fields folder with
      | fail w1 => simp only [hsf] at h; cases h
      | ok s3 w1 fmf =>
        simp only [hsf] at h
        injection h with h1 h2 h3
        subst h1
        exact frameStores_trans (frame_update_resolve hm)
          (saveFieldsWith_frame
            (fun st c s4 w4 p4 hc => ih st c folder s4 w4 p4 hc)
            m.fields _ s3 w1 fmf hsf)

/-- A one-node model graph whose single field refers back to the node
itself: the smallest reference cycle. -/
def loopModel (fp : Option String) : GenModel :=
  { filepath := fp, fname := "loop", ext := ".bui",
    fields := [("itself", GenValue.child 0)] }

/-- Saving the cyclic one-node graph exhausts every recursion budget
without writing anything: the code has no cycle detection and raises no
cycle error; it recurses until the stack gives out. -/
theorem saveModel_loop (folder : String) :
    ∀ fuel fp, saveModel fuel [(0, loopModel fp)] 0 folder =
      SaveRes.fail [] := by
  intro fuel
  induction fuel with
  | zero => intro fp; rfl
  | succ f ih =>
    intro fp
    have h2 : saveFieldsWith (saveModel f)
        [(0, loopModel (some (resolveLocation folder (loopModel fp))))]
        [("itself", GenValue.child 0)] folder = FieldsRes.fail [] := by
      show (match saveModel f
          [(0, loopModel (some (resolveLocation folder (loopModel fp))))]
          0 folder with
        | SaveRes.ok s2 w p =>
          match saveFieldsWith (saveModel f) s2 [] folder with
          | FieldsRes.ok s3 w2 fmf =>
            FieldsRes.ok s3 (w ++ w2) (("itself", p) :: fmf)
          | FieldsRes.fail w2 => FieldsRes.fail (w ++ w2)
        | SaveRes.fail w => FieldsRes.fail w) = FieldsRes.fail []
      rw [ih (some (resolveLocation folder (loopModel fp)))]
    show (match saveFieldsWith (saveModel f)
        [(0, loopModel (some (resolveLocation folder (loopModel fp))))]
        [("itself", GenValue.child 0)] folder with
      | FieldsRes.ok s2 w fmf =>
        SaveRes.ok s2 (w ++ [(resolveLocation folder (loopModel fp),
          flattenFields [("itself", GenValue.child 0)]
            ("filepath" :: fmf.map Prod.fst) ++
            fmf.map (fun nv => (nv.1, DataVal.pathV nv.2)))])
          (resolveLocation folder (loopModel fp))
      | FieldsRes.fail w => SaveRes.fail w) = SaveRes.fail []
    rw [h2]

/-- One child-reference edge of the ownership graph: entity `i` holds a
nested file-backed field referring to `c`. -/
def hasChild (store : Store) (i c : Nat) : Prop :=
  ∃ m n, lookupStore store i = some m ∧ (n, GenValue.child c) ∈ m.fields

/-- A reference cycle is reachable from `i`: some entity reachable from
`i` through child references lies on a child-reference cycle. -/
def reachesCycle (store : Store) (i : Nat) : Prop :=
  ∃ z, Relation.ReflTransGen (hasChild store) i z ∧
    Relation.TransGen (hasChild store) z z

/-- Save changes nothing but filepaths, so it preserves every
child-reference edge. -/
theorem hasChild_of_frame {folder : String} {store store2 : Store}
    (hf : frameStores folder store store2) {i c : Nat}
    (h : hasChild store i c) : hasChild store2 i c := by
  obtain ⟨m, n, hl, hm⟩ := h
  obtain ⟨m2, hl2, hfields, -, -, -⟩ := hf i m hl
  exact ⟨m2, n, hl2, by rw [hfields]; exact hm⟩

theorem reachesCycle_of_frame {folder : String} {store store2 : Store}
    (hf : frameStores folder store store2) {i : Nat}
    (h : reachesCycle store i) : reachesCycle store2 i := by
  obtain ⟨z, hrt, hc⟩ := h
  refine ⟨z, ?_, ?_⟩
  · exact Relation.ReflTransGen.mono (fun a b hab => hasChild_of_frame hf hab) hrt
  · exact Relation.TransGen.mono (fun a b hab => hasChild_of_frame hf hab) hc

/-- If a cycle is reachable from a present entity, it is reachable through
one of that entity's own child fields. -/
theorem reachesCycle_step {store : Store} {i : Nat} {m : GenModel}
    (hl : lookupStore store i = some m) (h : reachesCycle store i) :
    ∃ n c, (n, GenValue.child c) ∈ m.fields ∧ reachesCycle store c := by
  obtain ⟨z, hrt, hc⟩ := h
  rcases Relation.ReflTransGen.cases_head hrt with heq | ⟨b, hib, hbz⟩
  · subst heq
    obtain ⟨b, hib, hbi⟩ := Relation.TransGen.head'_iff.1 hc
    obtain ⟨m2, n, hl2, hmem⟩ := hib
    rw [hl] at hl2
    obtain rfl := Option.some.inj hl2
    exact ⟨n, b, hmem, ⟨i, hbi, hc⟩⟩
  · obtain ⟨m2, n, hl2, hmem⟩ := hib
    rw [hl] at hl2
    obtain rfl := Option.some.inj hl2
    exact ⟨n, b, hmem, ⟨z, hbz, hc⟩⟩

/-- A successful child loop saved every nested field successfully: for each
child field there is an intermediate heap (frame-reachable from the start)
on which the recursive save returned ok. -/
theorem saveFieldsWith_child_ok {sv : Store → Nat → String → SaveRes}
    {folder : String}
    (hsv : ∀ store c s2 w p, sv store c folder = SaveRes.ok s2 w p →
      frameStores folder store s2) :
    ∀ fields store s2 w fmf,
      saveFieldsWith sv store fields folder = FieldsRes.ok s2 w fmf →
      ∀ n c, (n, GenValue.child c) ∈ fields →
        ∃ st s3 w3 p3, frameStores folder store st ∧
          sv st c folder = SaveRes.ok s3 w3 p3 := by
  intro fields
  induction fields with
  | nil =>
    intro store s2 w fmf h n c hmem
    simp at hmem
  | cons nv rest ih =>
    intro store s2 w fmf h n c hmem
    obtain ⟨n0, v0⟩ := nv
    rcases List.mem_cons.1 hmem with heq | hmem2
    · injection heq with h1 h2
      subst h1
      subst h2
      simp only [saveFieldsWith] at h
      cases hc0 : sv store c folder with
      | fail w1 => simp only [hc0] at h; cases h
      | ok s1 w1 p1 =>
        exact ⟨store, s1, w1, p1, frameStores_refl folder store, hc0⟩
    · cases v0 with
      | prim pv =>
        simp only [saveFieldsWith] at h
        exact ih store s2 w fmf h n c hmem2
      | noneVal =>
        simp only [saveFieldsWith] at h
        exact ih store s2 w fmf h n c hmem2
      | child c0 =>
        simp only [saveFieldsWith] at h
        cases hc0 : sv store c0 folder with
        | fail w1 => simp only [hc0] at h; cases h
        | ok s1 w1 p1 =>
          simp only [hc0] at h
          cases hr : saveFieldsWith sv s1 rest folder with
          | fail w2 => simp only [hr] at h; cases h
          | ok s3 w2 fmf2 =>
            obtain ⟨st, s4, w4, p4, hframe, hok⟩ :=
              ih s1 s3 w2 fmf2 hr n c hmem2
            exact ⟨st, s4, w4, p4,
              frameStores_trans (hsv store c0 s1 w1 p1 hc0) hframe, hok⟩

/-- Saving any entity from which a reference cycle is reachable exhausts
every recursion budget: the recursion never completes, whatever the
budget; the failure carries the files already written. -/
theorem saveModel_cycle_fail :
    ∀ fuel store id folder, reachesCycle store id →
      ∃ w, saveModel fuel store id folder = SaveRes.fail w := by
  intro fuel
  induction fuel with
  | zero => intro store id folder _; exact ⟨[], rfl⟩
  | succ f ih =>
    intro store id folder hcyc
    cases hm : lookupStore store id with
    | none => exact ⟨[], by simp only [saveModel, hm]⟩
    | some m =>
      cases hsf : saveFieldsWith (saveModel f)
          (updateStore store id
            { m with filepath := some (resolveLocation folder m) })
          m.fields folder with
      | fail w1 => exact ⟨w1, by simp only [saveModel, hm, hsf]⟩
      | ok s2 w1 fmf =>
        exfalso
        have hframe1 := @frame_update_resolve store id m folder hm
        have hl1 : lookupStore
            (updateStore store id
              { m with filepath := some (resolveLocation folder m) }) id =
            some { m with filepath := some (resolveLocation folder m) } :=
          lookupStore_update_self _ hm
        have hcyc1 := reachesCycle_of_frame hframe1 hcyc
        obtain ⟨n, c, hmem, hcycc⟩ := reachesCycle_step hl1 hcyc1
        obtain ⟨st, s3, w3, p3, hframe2, hok⟩ :=
          saveFieldsWith_child_ok
            (fun st c2 s4 w4 p4 hc => saveModel_frame f st c2 folder s4 w4 p4 hc)
            m.fields _ s2 w1 fmf hsf n c hmem
        obtain ⟨w5, hfail⟩ := ih st c folder (reachesCycle_of_frame hframe2 hcycc)
        rw [hok] at hfail
        cases hfail

/-- A root with an acyclic leaf child declared before a cyclic child: the
leaf is saved (and its file written) before the recursion enters the
cycle. -/
def mixedStore : Store :=
  [(0, { filepath := none, fname := "root_file", ext := ".bui",
         fields := [("leaf", GenValue.child 1), ("cyc", GenValue.child 2)] }),
   (1, { filepath := none, fname := "leaf", ext := ".bui",
         fields := [("x", GenValue.prim "v")] }),
   (2, { filepath := none, fname := "self", ext := ".bui",
         fields := [("itself", GenValue.child 2)] })]

end HydrolibSave

namespace HydrolibBui

open HydrolibText

/-- A `BuiModel` as a file-backed entity: the optional bound location plus
the document fields. -/
structure BuiModelFM where
  filepath : Option Text
  doc : BuiDocument
deriving DecidableEq, Repr

/-- `FileModel.save` specialized to a `BuiModel` leaf (a `BuiModel` has no
nested file-backed fields): resolve the location if absent to
`folder / "bui_file" ++ ".bui"`, then serialize the document at the
resolved location.  Returns the updated entity, the resolved location and
the written bytes; `now` is the construction timestamp the serializer
embeds in its generated comment line. -/
def buiSave (m : BuiModelFM) (folder now : Text) : BuiModelFM × Text × Text :=
  let fp :=
    match m.filepath with
    | some p => p
    | none => folder ++ '/' :: "bui_file.bui".toList
  ({ m with filepath := some fp }, fp, serializeBui fp now m.doc)

/-- A small valid document used as concrete input. -/
def sampleDoc : BuiDocument :=
  { default_dataset := 1
    number_of_stations := 1
    name_of_stations := [['S']]
    number_of_events := 1
    seconds_per_timestep := 10800
    precipitation_events := [
      { start_time := ⟨1996, 1, 1, 0, 0, 0⟩
        timeseries_length := 97200
        precipitation_per_timestep := [[['0', '.', '2']]] }] }

/-- The sample document as an unbound file-backed entity. -/
def sampleModelFM : BuiModelFM :=
  { filepath := none, doc := sampleDoc }

/-- The event-block text of the repository's event-parser test: a
ten-integer header line and two data rows. -/
def evtText : Text := "2021 12 20 0 0 0 1 0 4 20\n4.2\n4.2".toList

/-- The field mapping the event parser returns for `evtText`. -/
def evtMapping : List (String × FieldValue) :=
  [("start_time", FieldValue.timeVal ⟨2021, 12, 20, 0, 0, 0⟩),
   ("timeseries_length", FieldValue.durVal 86660),
   ("precipitation_per_timestep",
     FieldValue.textRows [["4.2".toList], ["4.2".toList]])]

end HydrolibBui

namespace HydrolibSave

/-- A root entity with one plain field and two nested file-backed fields,
each child a leaf with one plain field; no entity is bound yet. -/
def twoChildStore (ta tx ty : String) : Store :=
  [(0, { filepath := none, fname := "root_file", ext := ".bui",
         fields := [("a", GenValue.prim ta), ("child_one", GenValue.child 1),
                    ("child_two", GenValue.child 2)] }),
   (1, { filepath := none, fname := "one", ext := ".bui",
         fields := [("x", GenValue.prim tx)] }),
   (2, { filepath := none, fname := "two", ext := ".bui",
         fields := [("y", GenValue.prim ty)] })]

/-- The heap after saving `twoChildStore` into `folder`: every entity bound
to its generated default location, nothing else changed. -/
def twoChildStoreSaved (folder ta tx ty : String) : Store :=
  [(0, { filepath := some (joinPath folder "root_file.bui"),
         fname := "root_file", ext := ".bui",
         fields := [("a", GenValue.prim ta), ("child_one", GenValue.child 1),
                    ("child_two", GenValue.child 2)] }),
   (1, { filepath := some (joinPath folder "one.bui"),
         fname := "one", ext := ".bui",
         fields := [("x", GenValue.prim tx)] }),
   (2, { filepath := some (joinPath folder "two.bui"),
         fname := "two", ext := ".bui",
         fields := [("y", GenValue.prim ty)] })]

/-- The three files a save of `twoChildStore` writes, in write order: both
children first, then the root, whose mapping holds the children's resolved
locations in place of their structures. -/
def twoChildWritten (folder ta tx ty : String) : List (String × DataMap) :=
  [(joinPath folder "one.bui", [("x", DataVal.prim tx)]),
   (joinPath folder "two.bui", [("y", DataVal.prim ty)]),
   (joinPath folder "root_file.bui",
     [("a", DataVal.prim ta),
      ("child_one", DataVal.pathV (joinPath folder "one.bui")),
      ("child_two", DataVal.pathV (joinPath folder "two.bui"))])]

end HydrolibSave

section Claims

open HydrolibText HydrolibBui HydrolibModel HydrolibSave

/-- C2: for every Document built from valid field values, serializing it
and then parsing (and coercing) the serialized text reproduces the
original Document field-by-field — including the station-name list, the
four-integer duration decomposition, and the literal text of every
observation value. -/
theorem claim_C2_roundtrip {loc now : Text} {d : BuiDocument}
    (hd : validDoc d = true) (hl : '\n' ∉ loc) (hn : '\n' ∉ now) :
    parseBuiDoc (serializeBui loc now d) = some d :=
  parseBuiDoc_serializeBui hd hl hn

/-- C2 witness: the round trip evaluated on a concrete valid document. -/
theorem claim_C2_roundtrip_witness :
    validDoc sampleDoc = true ∧
    parseBuiDoc (serializeBui ['p'] ['t'] sampleDoc) = some sampleDoc :=
  ⟨by decide, claim_C2_roundtrip (by decide) (by decide) (by decide)⟩

set_option maxRecDepth 10000 in
/-- C5 counterexample: on the one-node cyclic graph, save with a recursion
budget of 100 exhausts the budget — recursion a hundred levels deep on a
one-entity graph — instead of failing fast with a cycle error (the code
has no cycle detection and no cycle-error outcome), and no file is
written. -/
theorem claim_C5_counterexample :
    saveModel 100 [(0, loopModel none)] 0 "out" = SaveRes.fail [] := by
  decide

set_option maxRecDepth 10000 in
/-- C5 amended: for every model graph in which a reference cycle between
File-Backed Model nodes is reachable from the saved entity, save never
completes and never raises a cycle error — it exhausts every recursion
budget, failing with whatever files were already written; nested fields
saved before the recursion enters the cycle may already have written their
files, witnessed by a root whose acyclic leaf child's file is on disk when
the failure surfaces. -/
theorem claim_C5_cycle :
    (∀ fuel store id folder, reachesCycle store id →
      ∃ w, saveModel fuel store id folder = SaveRes.fail w) ∧
    saveModel 50 mixedStore 0 "out" =
      SaveRes.fail [(joinPath "out" "leaf.bui", [("x", DataVal.prim "v")])] :=
  ⟨saveModel_cycle_fail, by decide⟩

/-- C5 amended witness: the nontermination conjunct applied to the
one-node self-cycle, its cycle reachability discharged explicitly. -/
theorem claim_C5_cycle_witness :
    ∃ w, saveModel 7 [(0, loopModel none)] 0 "out" = SaveRes.fail w :=
  claim_C5_cycle.1 7 [(0, loopModel none)] 0 "out"
    ⟨0, Relation.ReflTransGen.refl,
      Relation.TransGen.single
        ⟨loopModel none, "itself", rfl, by simp [loopModel]⟩⟩

/-- C6: decomposing any non-negative total-seconds value into
(days, hours, minutes, seconds) by the serializer's algorithm and
recomposing via days*86400 + hours*3600 + minutes*60 + seconds yields the
original value; in particular 4*86400 + 2000 decomposes to (4, 0, 33, 20),
which the serializer renders as "4 0 33 20". -/
theorem claim_C6_duration :
    (∀ t : Nat,
      (match decomposeDuration t with
       | (d, h, m, s) => recomposeDuration d h m s) = t) ∧
    decomposeDuration (4 * 86400 + 2000) = (4, 0, 33, 20) ∧
    serializeTimeseriesLength (4 * 86400 + 2000) = "4 0 33 20".toList := by
  refine ⟨?_, by decide, by decide⟩
  intro t
  exact recompose_decompose t

/-- C7: parsing the event block "2021 12 20 0 0 0 1 0 4 20" followed by
the data rows "4.2" and "4.2" yields start time 2021-12-20T00:00:00, a
duration of 1 day 0 hours 4 minutes 20 seconds, and the literal values
[["4.2"], ["4.2"]]. -/
theorem claim_C7_event :
    buiEventParse evtText =
      some { start_time := ⟨2021, 12, 20, 0, 0, 0⟩,
             timeseries_length := 1 * 86400 + 0 * 3600 + 4 * 60 + 20,
             precipitation_per_timestep := [["4.2".toList], ["4.2".toList]] }
    := by decide

/-- C8: saving a root with two nested File-Backed Model fields saves both
children first (recursively, into the same target folder), writes three
files total, and the root's outgoing mapping holds the two children's
resolved locations — not their nested structures, which are excluded from
generic flattening. -/
theorem claim_C8_graph (folder ta tx ty : String) :
    saveModel 3 (twoChildStore ta tx ty) 0 folder =
      SaveRes.ok (twoChildStoreSaved folder ta tx ty)
        (twoChildWritten folder ta tx ty)
        (joinPath folder "root_file.bui") ∧
    (twoChildWritten folder ta tx ty).length = 3 :=
  ⟨rfl, rfl⟩

/-- C10: a successful save changes no field of any entity in the heap
other than `filepath`, and `filepath` changes only when it was previously
absent — it is then the target folder joined with the format's default
filename and extension. -/
theorem claim_C10_frame (fuel : Nat) (store : Store) (id : Nat)
    (folder : String) (store2 : Store) (written : List (String × DataMap))
    (path : String)
    (h : saveModel fuel store id folder = SaveRes.ok store2 written path) :
    ∀ j m, lookupStore store j = some m →
      ∃ m2, lookupStore store2 j = some m2 ∧
        m2.fields = m.fields ∧ m2.fname = m.fname ∧ m2.ext = m.ext ∧
        ((∃ p, m.filepath = some p ∧ m2.filepath = some p) ∨
          (m.filepath = none ∧
            (m2.filepath = none ∨
              m2.filepath = some (joinPath folder (m.fname ++ m.ext))))) :=
  saveModel_frame fuel store id folder store2 written path h

/-- C10 witness: the frame property evaluated for the first child of the
concrete two-child graph. -/
theorem claim_C10_frame_witness :
    ∃ m2, lookupStore (twoChildStoreSaved "out" "1" "7" "8") 1 = some m2 ∧
      m2.fields = [("x", GenValue.prim "7")] ∧ m2.fname = "one" ∧
      m2.ext = ".bui" ∧
      ((∃ p, (none : Option String) = some p ∧ m2.filepath = some p) ∨
        ((none : Option String) = none ∧
          (m2.filepath = none ∨
            m2.filepath = some (joinPath "out" ("one" ++ ".bui"))))) :=
  claim_C10_frame 3 (twoChildStore "1" "7" "8") 0 "out"
    (twoChildStoreSaved "out" "1" "7" "8") (twoChildWritten "out" "1" "7" "8")
    (joinPath "out" "root_file.bui") rfl 1
    { filepath := none, fname := "one", ext := ".bui",
      fields := [("x", GenValue.prim "7")] } rfl

/-- A parse function returning the mapping {"number_of_stations": "1"}
for every location (the value a `.bui` file supplies). -/
def c1Parse : String → HydrolibModel.Mapping := fun _ =>
  HydrolibModel.Mapping.set HydrolibModel.emptyMapping "number_of_stations"
    (HydrolibModel.MVal.textV "1")

/-- Explicitly supplied fields holding the conflicting value
{"number_of_stations": "2"}. -/
def c1Kwargs : HydrolibModel.Mapping :=
  HydrolibModel.Mapping.set HydrolibModel.emptyMapping "number_of_stations"
    (HydrolibModel.MVal.textV "2")

/-- C1 counterexample: constructing with a location whose parsed mapping
holds "1" under a key the explicit arguments set to "2" submits "1" — the
parsed value, not the explicitly supplied one — to validation: the merge
`kwargs.update(data)` lets parsed fields win on conflict. -/
theorem claim_C1_counterexample :
    fileModelInit c1Parse (some "default.bui") c1Kwargs "number_of_stations"
        = some (MVal.textV "1") ∧
    c1Kwargs "number_of_stations" = some (MVal.textV "2") ∧
    fileModelInit c1Parse (some "default.bui") c1Kwargs "number_of_stations"
        ≠ c1Kwargs "number_of_stations" := by
  refine ⟨rfl, rfl, ?_⟩
  decide

/-- C1 amended: when a File-Backed Model is constructed with a location,
the parsed field mapping is produced first and the location is merged into
it under its reserved key "filepath"; that mapping is then merged on top
of the explicitly supplied fields, so for every field present in both, the
parsed value wins in the mapping submitted to validation, and explicitly
supplied fields survive only where the parsed mapping is silent. -/
theorem claim_C1_merge (parse : String → Mapping) (fp : String)
    (kwargs : Mapping) :
    (fileModelInit parse (some fp) kwargs) "filepath"
        = some (MVal.pathV fp) ∧
    (∀ k v, k ≠ "filepath" → parse fp k = some v →
      (fileModelInit parse (some fp) kwargs) k = some v) ∧
    (∀ k, k ≠ "filepath" → parse fp k = none →
      (fileModelInit parse (some fp) kwargs) k = kwargs k) := by
  refine ⟨?_, ?_, ?_⟩
  · simp [fileModelInit, Mapping.update, Mapping.set]
  · intro k v hk hp
    simp [fileModelInit, Mapping.update, Mapping.set, hk, hp]
  · intro k hk hp
    simp [fileModelInit, Mapping.update, Mapping.set, hk, hp]

/-- C1 witness: the amended merge evaluated at the concrete conflicting
mappings — the parsed value is the one submitted. -/
theorem claim_C1_merge_witness :
    fileModelInit c1Parse (some "default.bui") c1Kwargs "number_of_stations"
      = some (MVal.textV "1") :=
  (claim_C1_merge c1Parse "default.bui" c1Kwargs).2.1 "number_of_stations"
    (MVal.textV "1") (by decide) rfl

/-- C3 counterexample: the event parser's returned mapping on the concrete
test block holds a structured timestamp under "start_time" and a structured
duration under "timeseries_length" — not every value of the mapping is
text. -/
theorem claim_C3_counterexample :
    buiEventParseMapping evtText = some evtMapping ∧
    evtMapping.all (fun kv => kv.2.isTextual) = false := by
  exact ⟨by decide, by decide⟩

/-- C3 amended: every value of the field mappings the parsers return is
left as text (a string or a list of strings), except the event parser's
"start_time" and "timeseries_length" entries, which it coerces into a
structured timestamp and duration; the document parser's preamble mapping
is entirely textual. -/
theorem claim_C3_textual :
    (∀ text mp, buiEventParseMapping text = some mp →
      ∀ kv ∈ mp, kv.1 ≠ "start_time" → kv.1 ≠ "timeseries_length" →
        kv.2.isTextual = true) ∧
    (∀ text mp, buiParseMapping text = some mp →
      ∀ kv ∈ mp, kv.2.isTextual = true) := by
  constructor
  · intro text mp hmp kv hkv h1 h2
    unfold buiEventParseMapping at hmp
    cases hb : buiEventParse text with
    | none => rw [hb] at hmp; cases hmp
    | some e =>
      rw [hb] at hmp
      simp only [Option.map_some'] at hmp
      have hmpe := Option.some.inj hmp
      subst hmpe
      simp only [List.mem_cons, List.not_mem_nil, or_false] at hkv
      rcases hkv with rfl | rfl | rfl
      · exact absurd rfl h1
      · exact absurd rfl h2
      · rfl
  · intro text mp hmp kv hkv
    unfold buiParseMapping at hmp
    cases hb : parseBui text with
    | none => rw [hb] at hmp; cases hmp
    | some m =>
      rw [hb] at hmp
      simp only [Option.map_some'] at hmp
      have hmpe := Option.some.inj hmp
      subst hmpe
      simp only [List.mem_cons, List.not_mem_nil, or_false] at hkv
      rcases hkv with rfl | rfl | rfl | rfl | rfl <;> rfl

/-- C3 witness: the amended statement evaluated on the concrete event
block — its observation-values entry is textual. -/
theorem claim_C3_textual_witness :
    (("precipitation_per_timestep",
        FieldValue.textRows [["4.2".toList], ["4.2".toList]]) :
      String × FieldValue).2.isTextual = true :=
  claim_C3_textual.1 evtText evtMapping (by decide) _ (by decide)
    (by decide) (by decide)

/-- C4 counterexample: saving the same entity twice into the same folder
resolves the same location both times, but the written bytes differ when
the serializer's generated construction timestamp differs — byte identity
does not hold unconditionally. -/
theorem claim_C4_counterexample :
    (buiSave (buiSave sampleModelFM ['o'] ['a']).1 ['o'] ['b']).2.1 =
      (buiSave sampleModelFM ['o'] ['a']).2.1 ∧
    (buiSave (buiSave sampleModelFM ['o'] ['a']).1 ['o'] ['b']).2.2 ≠
      (buiSave sampleModelFM ['o'] ['a']).2.2 := by
  exact ⟨by decide, by decide⟩

/-- C4 amended: calling save twice with the same folder yields the
identical resolved location both times (the location is fixed after the
first resolution), and the file contents are byte-identical whenever the
serializer's generated construction timestamp is the same. -/
theorem claim_C4_idempotent (m : BuiModelFM) (folder now1 now2 : Text) :
    (buiSave (buiSave m folder now1).1 folder now2).2.1 =
      (buiSave m folder now1).2.1 ∧
    (now1 = now2 →
      (buiSave (buiSave m folder now1).1 folder now2).2.2 =
        (buiSave m folder now1).2.2) := by
  obtain ⟨fpOpt, doc⟩ := m
  cases fpOpt with
  | none => exact ⟨rfl, fun h => by subst h; rfl⟩
  | some p => exact ⟨rfl, fun h => by subst h; rfl⟩

/-- C4 witness: the amended idempotence evaluated at a concrete entity
with the timestamp held fixed. -/
theorem claim_C4_idempotent_witness :
    (buiSave (buiSave sampleModelFM ['o'] ['a']).1 ['o'] ['a']).2.2 =
      (buiSave sampleModelFM ['o'] ['a']).2.2 :=
  (claim_C4_idempotent sampleModelFM ['o'] ['a'] ['a']).2 rfl

/-- The mapping produced when a bare path is validated and the entity is
constructed from it. -/
def c9Mapping : Mapping :=
  (fileModelValidateFull c1Parse
    (ValidateInput.pathVal "default.bui")).getD emptyMapping

/-- C9: a bare filesystem Path supplied where a File-Backed Model field is
expected is not rejected: `validate` wraps it into the mapping with the
path under "filepath", and the nested model is then constructed from —
and loaded from — that path: the constructed mapping binds "filepath" to
the path and carries the parse of that path everywhere else. -/
theorem claim_C9_validate (parse : String → Mapping) (p : String) :
    fileModelValidate (ValidateInput.pathVal p) =
      ValidateInput.dictVal
        (Mapping.set emptyMapping "filepath" (MVal.pathV p)) ∧
    (fileModelValidateFull parse (ValidateInput.pathVal p)).isSome = true ∧
    (∀ m, fileModelValidateFull parse (ValidateInput.pathVal p) = some m →
      m "filepath" = some (MVal.pathV p) ∧
      ∀ k, k ≠ "filepath" → m k = parse p k) := by
  refine ⟨rfl, rfl, ?_⟩
  intro m hm
  have hm2 := Option.some.inj hm
  subst hm2
  constructor
  · simp [fileModelInit, Mapping.update, Mapping.set]
  · intro k hk
    cases hpk : parse p k with
    | some v =>
      simp [fileModelInit, Mapping.update, Mapping.set, hpk, hk]
    | none =>
      simp [fileModelInit, Mapping.update, Mapping.set, Mapping.remove,
        emptyMapping, hk, hpk]

/-- C9 witness: the validation path evaluated at the concrete parse
function — "filepath" binds the path and the parsed field appears in the
constructed mapping. -/
theorem claim_C9_validate_witness :
    c9Mapping "filepath" = some (MVal.pathV "default.bui") ∧
    c9Mapping "number_of_stations" = some (MVal.textV "1") := by
  have h := (claim_C9_validate c1Parse "default.bui").2.2 c9Mapping rfl
  refine ⟨h.1, ?_⟩
  rw [h.2 "number_of_stations" (by decide)]
  rfl

end Claims
